import Mathlib

/-!
# Verification of the overlay-risk TWAP / VaR engine

Shallow embedding of the TWAP-extraction and VaR-estimation core of
`scripts/influx_metrics.py` and `scripts/influx_metrics_univ3.py`.

Modelling conventions:
* Python `float` values are modelled as exact real numbers (`ℝ`); where the
  scripts can produce NaN or ±Inf (numpy warnings, not exceptions), a value is
  modelled as `Option ℝ` with `none` standing for any non-finite/invalid float.
* Timestamps are integer epoch seconds (`ℤ`); Uniswap-v3 tick cumulatives are
  integers (`ℤ`); Sushi price cumulatives and rates are modelled as `ℚ` where
  the computation stays in exact field arithmetic.
* A pandas frame of one `_field` is a `PriceFrame`: by construction in
  `get_price_cumulatives` every row of one frame carries the same `_field`
  string, so the field is a per-frame datum.
* A raised Python exception is modelled by an `Option`-valued result being
  `none`.
-/

namespace OverlayRisk

/-- Python `int()` applied to a rational: truncation toward zero. -/
def pyInt (q : ℚ) : ℤ := if 0 ≤ q then ⌊q⌋ else ⌈q⌉

/-! ## Dynamic-window TWAP (`influx_metrics_univ3.py`) -/

/-- One price-cumulative dataframe: its `_field` tag and the ordered
`(_time, _value)` rows.  `get_price_cumulatives` builds each frame with a
single uniform `_field` value (`tick_cumulative0` or `tick_cumulative1`). -/
structure PriceFrame where
  field : String
  rows : List (ℤ × ℤ)

/-- `_time` of row `r` (0-based), epoch seconds. -/
def ptime (pc : PriceFrame) (r : ℕ) : ℤ := (pc.rows.getD r (0, 0)).1

/-- `_value` of row `r` (0-based). -/
def pval (pc : PriceFrame) (r : ℕ) : ℤ := (pc.rows.getD r (0, 0)).2

/-- Parameters consumed by `get_twap` in `influx_metrics_univ3.py`. -/
structure TwapParams where
  window : ℤ
  period : ℤ
  tolerance : ℤ

/-- `max_rows = ((window/period)+1) * 2` (Python float division) followed by
the `int(max_rows)` cast at the `dynamic_window` call site. -/
def maxRows (p : TwapParams) : ℤ :=
  pyInt (((p.window : ℚ) / (p.period : ℚ) + 1) * 2)

/-- Column `i` of `dynamic_window`: `abs(total_seconds(_time[r] - _time[r-i]) - window)`. -/
def lagScore (pc : PriceFrame) (window : ℤ) (r i : ℕ) : ℤ :=
  |ptime pc r - ptime pc (r - i) - window|

/-- `idxmin(axis="columns")`: scan the candidate indices in order, keep the
first index attaining the minimum (a later index replaces the current best
only on a strictly smaller score). -/
def idxminAux (f : ℕ → ℤ) : List ℕ → ℕ → ℕ
  | [], best => best
  | i :: is, best => if f i < f best then idxminAux f is i else idxminAux f is best

/-- The `dynamic_window` column for row `r`: the lag in `1..maxLag` whose
elapsed time is closest to `window`, first (smallest) lag on ties. -/
def dynLag (pc : PriceFrame) (window : ℤ) (maxLag : ℕ) (r : ℕ) : ℕ :=
  idxminAux (lagScore pc window r) (List.range' 2 (maxLag - 1)) 1

/-- The selected lag of row `r` under the parameters of `get_twap`. -/
def lagOf (pc : PriceFrame) (p : TwapParams) (r : ℕ) : ℕ :=
  dynLag pc p.window (maxRows p).toNat r

/-- The row `delta_window` actually differences against.  `dynamic_window`
drops the first `max_rows` rows (`dropna`), and `delta_window` then computes
`values.iloc[loc - lb]` where `loc` is the *position* of row `r` inside the
dropped frame, i.e. `r - max_rows`.  For `loc - lb ≥ 0` this is original row
`r - lag`; for negative `loc - lb` Python positional indexing wraps from the
end of the frame, giving original row `len + r - max_rows - lag` as long as
`loc - lb ≥ -(len - max_rows)`; below that, `iloc` raises `IndexError`
(modelled as `none`). -/
def refRow (pc : PriceFrame) (p : TwapParams) (r : ℕ) : Option ℕ :=
  let M := (maxRows p).toNat
  let L := pc.rows.length
  let lag := lagOf pc p r
  let j : ℤ := (r : ℤ) - M - lag
  if 0 ≤ j then some (r - lag)
  else if -((L - M : ℕ) : ℤ) ≤ j then some (((L : ℤ) + r - M - lag).toNat)
  else none

/-- The `dt` column of row `r` in seconds (`none` when `delta_window` raises). -/
def dtRow (pc : PriceFrame) (p : TwapParams) (r : ℕ) : Option ℤ :=
  (refRow pc p r).map fun R => ptime pc r - ptime pc R

/-- The `dp` column of row `r` (`none` when `delta_window` raises). -/
def dpRow (pc : PriceFrame) (p : TwapParams) (r : ℕ) : Option ℤ :=
  (refRow pc p r).map fun R => pval pc r - pval pc R

/-- The rows surviving `dynamic_window`'s `dropna`: a row needs all
`max_rows` lag columns, i.e. at least `max_rows` rows of history. -/
def kept (pc : PriceFrame) (p : TwapParams) : List ℕ :=
  (List.range pc.rows.length).filter fun r => decide ((maxRows p).toNat ≤ r)

/-- The two row filters of `get_twap`: `pc[pc['dt'] > 0]` and
`pc[(pc['dt'] <= upper_limit) & (pc['dt'] >= lower_limit)]`. -/
def keepRow (pc : PriceFrame) (p : TwapParams) (r : ℕ) : Bool :=
  ((dtRow pc p r).map fun d =>
    decide (0 < d ∧ p.window - p.tolerance ≤ d ∧ d ≤ p.window + p.tolerance)).getD false

/-- The rows remaining after `dropna` and both `dt` filters. -/
def survivors (pc : PriceFrame) (p : TwapParams) : List ℕ :=
  (kept pc p).filter fun r => keepRow pc p r

/-- `pc.apply(delta_window, ...)` succeeds on every kept row (no row's
`iloc` lookup raises `IndexError`). -/
def applyOk (pc : PriceFrame) (p : TwapParams) : Bool :=
  (kept pc p).all fun r => (refRow pc p r).isSome

/-- One output row of `get_twap`. -/
structure TWAPSample where
  timestamp : ℤ
  window : ℤ
  twap : ℝ

/-- `twap_112` of a surviving row: `np.power(1.0001, dp/dt)`, inverted
(`twaps = 1/twaps`) when the frame holds the inverse-direction accumulator
`tick_cumulative1` (the code tests `pc.loc[0, '_field']`, the field of the
first surviving row, which by frame construction is the field of every row). -/
noncomputable def twapRow (pc : PriceFrame) (p : TwapParams) (r : ℕ) : ℝ :=
  let x : ℝ := (((((dpRow pc p r).getD 0 : ℤ) : ℚ) /
    (((dtRow pc p r).getD 0 : ℤ) : ℚ) : ℚ) : ℝ)
  if pc.field = "tick_cumulative1" then ((1.0001 : ℝ) ^ x)⁻¹ else (1.0001 : ℝ) ^ x

open Classical in
/-- `get_twap` of `influx_metrics_univ3.py`.  An `IndexError` inside
`pc.apply(delta_window, ...)` aborts the call (`none`).  When every row has
been filtered out, `pc.loc[0, '_field']` raises a `KeyError` on the empty
frame: also `none`.  Otherwise the output frame keeps, for each surviving
row, the window close time `_time[r]`, the elapsed window `dt`, and the
decoded `twap`, subject to the final `df[df['twap'] > 0]` filter. -/
noncomputable def getTwap (pc : PriceFrame) (p : TwapParams) : Option (List TWAPSample) :=
  if applyOk pc p then
    match survivors pc p with
    | [] => none
    | s => some (((s.map fun r =>
        (⟨ptime pc r, (dtRow pc p r).getD 0, twapRow pc p r⟩ : TWAPSample))).filter
          fun smp => decide (0 < smp.twap))
  else none

/-! ## Fixed-window TWAP (`influx_metrics.py`) -/

/-- The rolling rate `twap_112[r] = dp[r] / dt[r]` of `get_twap` in
`influx_metrics.py`: `pandas.rolling(window=w)` over `w` rows applies
`w[-1] - w[0]`, i.e. differences row `r` against row `r-(w-1)`; rows without
a complete window are NaN and are filtered out (`none`). -/
def fixedRate (rows : List (ℤ × ℚ)) (w : ℕ) (r : ℕ) : Option ℚ :=
  if 1 ≤ w ∧ w - 1 ≤ r ∧ r < rows.length then
    some (((rows.getD r (0, 0)).2 - (rows.getD (r - (w - 1)) (0, 0)).2) /
      (((rows.getD r (0, 0)).1 : ℚ) - ((rows.getD (r - (w - 1)) (0, 0)).1 : ℚ)))
  else none

/-- The rate as the specification sentence words it: accumulator values
"exactly `window` samples apart", i.e. row `r` differenced against row
`r - w`.  Stated from the spec, for comparison with `fixedRate`. -/
def claimFixedRate (rows : List (ℤ × ℚ)) (w : ℕ) (r : ℕ) : Option ℚ :=
  if w ≤ r ∧ r < rows.length then
    some (((rows.getD r (0, 0)).2 - (rows.getD (r - w) (0, 0)).2) /
      (((rows.getD r (0, 0)).1 : ℚ) - ((rows.getD (r - w) (0, 0)).1 : ℚ)))
  else none

/-! ## Fixed-point decoder (`compute_amount_out`) -/

/-- Python `>> 112` on an `int`: arithmetic shift, i.e. floor division
by `2 ^ 112`. -/
def rshift112 (z : ℤ) : ℤ := Int.fdiv z (2 ^ 112)

/-- `compute_amount_out`: the explicit `for i in range(0, len(rshift))` loop
assigning `rshift[i] = int(twap_112[i] * amount_in) >> PC_RESOLUTION`;
values land back in a float array, modelled as exact rationals. -/
def compute_amount_out : List ℚ → ℚ → List ℚ
  | [], _ => []
  | x :: xs, a => ((rshift112 (pyInt (x * a)) : ℤ) : ℚ) :: compute_amount_out xs a

/-! ## VaR estimation (`calc_vars` / `get_stat`, identical in both scripts)

`Option ℝ` models a float that may be NaN/Inf: `none` is any invalid
(non-finite) value, and arithmetic propagates it the way numpy propagates
NaN through `mean`, `var`, `sqrt`, `exp` and arithmetic. -/

/-- `np.log`: NaN on negative input, `-inf` at `0` — both invalid. -/
noncomputable def flog (x : Option ℝ) : Option ℝ :=
  x.bind fun v => if 0 < v then some (Real.log v) else none

/-- Float division: division by zero yields `inf`/NaN — invalid. -/
noncomputable def fdiv (a b : Option ℝ) : Option ℝ :=
  a.bind fun x => b.bind fun y => if y = 0 then none else some (x / y)

/-- `np.sqrt`: NaN on negative input. -/
noncomputable def fsqrt (x : ℝ) : Option ℝ :=
  if 0 ≤ x then some (Real.sqrt x) else none

/-- `scipy.stats.norm.ppf`, abstract over the exact inverse-CDF `ppf`
(an external library function): finite exactly on `(0, 1)`. -/
noncomputable def fppf (ppf : ℝ → ℝ) (q : ℝ) : Option ℝ :=
  if 0 < q ∧ q < 1 then some (ppf q) else none

/-- All values of the list, provided none is invalid. -/
def allSome : List (Option ℝ) → Option (List ℝ)
  | [] => some []
  | none :: _ => none
  | some x :: rest => (allSome rest).map (x :: ·)

/-- `np.mean`: NaN on an empty list, NaN whenever an entry is NaN. -/
noncomputable def fmean (l : List (Option ℝ)) : Option ℝ :=
  (allSome l).bind fun xs =>
    if xs.length = 0 then none else some (xs.sum / xs.length)

/-- `np.var` (population variance, `ddof = 0`): mean squared deviation from
the list's own mean; NaN on an empty list or on any NaN entry. -/
noncomputable def fvar (l : List (Option ℝ)) : Option ℝ :=
  (allSome l).bind fun xs =>
    if xs.length = 0 then none else
      some ((xs.map fun x => (x - xs.sum / xs.length) ^ 2).sum / xs.length)

/-- One cell of `calc_vars`:
`e ** (mu*n*t + sqrt(sig_sqrd) * sqrt(n*t) * ppf(1 - alpha)) - 1`. -/
noncomputable def varCell (ppf : ℝ → ℝ) (mu ss t n a : ℝ) : Option ℝ :=
  (fsqrt ss).bind fun sig =>
    (fsqrt (n * t)).bind fun rt =>
      (fppf ppf (1 - a)).bind fun z =>
        some (Real.exp (mu * n * t + sig * rt * z) - 1)

/-- `calc_vars`: the VaR bracket for every alpha of the configured array. -/
noncomputable def calc_vars (ppf : ℝ → ℝ) (mu ss t n : ℝ) (alphas : List ℝ) :
    List (Option ℝ) :=
  alphas.map (varCell ppf mu ss t n)

/-- `calc_vars` as called from `get_stat`, where `mu` and `ss` may already be
NaN: a NaN argument propagates into every cell. -/
noncomputable def fCalcVars (ppf : ℝ → ℝ) (mu ss : Option ℝ) (t n : ℝ)
    (alphas : List ℝ) : List (Option ℝ) :=
  match mu, ss with
  | some m, some s => calc_vars ppf m s t n alphas
  | _, _ => alphas.map fun _ => none

/-- `rs = [np.log(sample[i]/sample[i-1]) for i in range(1, len(sample))]`. -/
noncomputable def logReturns : List (Option ℝ) → List (Option ℝ)
  | a :: b :: rest => flog (fdiv b a) :: logReturns (b :: rest)
  | _ => []

/-- Parameters consumed by `get_stat`. -/
structure StatParams where
  period : ℝ
  alpha : List ℝ
  n : List ℝ

/-- The record `get_stat` assembles: `['timestamp', 'mu', 'sigSqrd', *var_labels]`,
the VaR grid flattened in `n`-major order as by `np.concatenate`. -/
structure RiskStat where
  timestamp : ℝ
  mu : Option ℝ
  sigSqrd : Option ℝ
  var : List (Option ℝ)

/-- `get_stat` (identical in `influx_metrics.py` and
`influx_metrics_univ3.py`): log-returns, `mu = np.mean(rs)/t`,
`ss = np.var(rs)/t`, then `vars = [calc_vars(mu, ss, t, n, alphas) for n in ns]`
concatenated into one flat record. -/
noncomputable def get_stat (ppf : ℝ → ℝ) (timestamp : ℝ)
    (sample : List (Option ℝ)) (p : StatParams) : RiskStat :=
  let t := p.period
  let rs := logReturns sample
  let mu := fdiv (fmean rs) (some t)
  let ss := fdiv (fvar rs) (some t)
  { timestamp := timestamp
    mu := mu
    sigSqrd := ss
    var := (p.n.map fun n => fCalcVars ppf mu ss t n p.alpha).flatten }

/-! ### Spec-side calibration formulas (from the specification's words) -/

/-- Spec step 1: `r_i = ln(twap_i / twap_{i-1})` for `i = 1..len-1`. -/
noncomputable def specLogReturns : List ℝ → List ℝ
  | a :: b :: rest => Real.log (b / a) :: specLogReturns (b :: rest)
  | _ => []

/-- Spec step 2: `mu = mean(r) / t`. -/
noncomputable def specMu (l : List ℝ) (t : ℝ) : ℝ :=
  ((specLogReturns l).sum / (specLogReturns l).length) / t

/-- Spec step 2: `sigma_sqrd = variance(r) / t`, population variance using the
sample's own mean and denominator `len(r)` (not `len(r) - 1`). -/
noncomputable def specSigmaSqrd (l : List ℝ) (t : ℝ) : ℝ :=
  (((specLogReturns l).map fun r =>
      (r - (specLogReturns l).sum / (specLogReturns l).length) ^ 2).sum /
    (specLogReturns l).length) / t

/-- The lookback-depth formula as the specification words it:
`max_lag = ceil(window/period + 1) * 2`.  Stated from the spec, for
comparison with `maxRows`. -/
def claimMaxLag (p : TwapParams) : ℤ :=
  ⌈(p.window : ℚ) / (p.period : ℚ) + 1⌉ * 2

/-! ## Concrete frames and parameter sets used to instantiate the theorems -/

/-- The configured parameters of `influx_metrics_univ3.py`:
`window = 60`, `period = 60`, `tolerance = 10`. -/
def exParams : TwapParams := ⟨60, 60, 10⟩

/-- Nine rows at exact 60 s spacing, tick cumulative growing 60 per row. -/
def exFrameLong : PriceFrame :=
  ⟨"tick_cumulative0",
    [(0, 0), (60, 60), (120, 120), (180, 180), (240, 240), (300, 300),
     (360, 360), (420, 420), (480, 480)]⟩

/-- Two rows only: fewer than `max_rows`, so every row is dropped. -/
def exFrameShort : PriceFrame := ⟨"tick_cumulative0", [(0, 0), (60, 60)]⟩

/-- Seven rows at 15 s spacing (for the lag-search counterexample). -/
def exFrameJitter : PriceFrame :=
  ⟨"tick_cumulative0", [(0, 0), (15, 1), (30, 2), (45, 3), (60, 4), (75, 5), (90, 6)]⟩

/-- `window = 90`, `period = 60`: `window/period` is not an integer, so
`int(...)` and `ceil(...)` disagree. -/
def exParams90 : TwapParams := ⟨90, 60, 10⟩

/-- Eight rows whose last surviving row references a wrapped (`iloc`-negative)
row rather than the row `lag` positions back. -/
def exFrameWrap : PriceFrame :=
  ⟨"tick_cumulative0",
    [(0, 0), (1, 0), (2, 0), (3, 0), (140, 0), (142, 0), (145, 55), (200, 110)]⟩

/-- `window = 60`, `period = 30`, `tolerance = 10` (so `max_rows = 6`). -/
def exParamsWrap : TwapParams := ⟨60, 30, 10⟩

/-- Five rows at exact 60 s spacing: the single kept row sits at the boundary
`r = max_rows` and wraps onto itself. -/
def exFrameBoundary : PriceFrame :=
  ⟨"tick_cumulative0", [(0, 0), (60, 60), (120, 120), (180, 180), (240, 240)]⟩

/-- Three fixed-window rows at spacing 1 with values 0, 1, 3. -/
def exRows : List (ℤ × ℚ) := [(0, 0), (1, 1), (2, 3)]

/-- A piecewise-linear stand-in for `scipy.stats.norm.ppf`: strictly
increasing, zero at `1/2`, and agreeing with the standard normal inverse CDF
to four decimal places at the two upper quantiles the VaR grid uses in the
monotonicity analysis: `probitApprox (19/20) = 1.645` (probit `1.64485…`)
and `probitApprox (99/100) = 2.326` (probit `2.32635…`). -/
noncomputable def probitApprox (q : ℝ) : ℝ :=
  if q ≤ 19 / 20 then (329 / 90) * (q - 1 / 2)
  else 1645 / 1000 + (681 / 40) * (q - 19 / 20)

/-- The per-row TWAP value as the specification words it (claim side):
`1.0001 ^ ((value[row] - value[row - lag*]) / delta_time)` with
`delta_time = timestamp[row] - timestamp[row - lag*]`, inverted when the
row's field is the inverse-direction accumulator `tick_cumulative1`. -/
noncomputable def claimTickTwap (pc : PriceFrame) (p : TwapParams) (r : ℕ) : ℝ :=
  let x : ℝ := ((((pval pc r - pval pc (r - lagOf pc p r) : ℤ) : ℚ) /
    ((ptime pc r - ptime pc (r - lagOf pc p r) : ℤ) : ℚ) : ℚ) : ℝ)
  if pc.field = "tick_cumulative1" then ((1.0001 : ℝ) ^ x)⁻¹ else (1.0001 : ℝ) ^ x

/-! # Theorems -/

/-! ## Shared helper lemmas -/

theorem pyInt_intCast (x : ℤ) : pyInt (x : ℚ) = x := by
  unfold pyInt
  split
  · exact Int.floor_intCast x
  · exact Int.ceil_intCast x

theorem maxRows_exParams : maxRows exParams = 4 := by
  norm_num [maxRows, pyInt, exParams]

theorem maxRows_exParamsWrap : maxRows exParamsWrap = 6 := by
  norm_num [maxRows, pyInt, exParamsWrap]

theorem maxRows_exParams90 : maxRows exParams90 = 5 := by
  norm_num [maxRows, pyInt, exParams90]

/-! ## C10: all rows filtered out makes `get_twap` raise -/

/-- C10: if `delta_window` itself raised nowhere but every row of the series
was removed by the filters, `get_twap` does not return an empty TWAP sample
set — it raises (`pc.loc[0, '_field']` on the empty frame), modelled as
`none`. -/
theorem get_twap_all_filtered_raises (pc : PriceFrame) (p : TwapParams)
    (hok : applyOk pc p = true) (h : survivors pc p = []) :
    getTwap pc p = none := by
  rw [getTwap, if_pos hok, h]

/-- C10 witness: a two-row series under the configured univ3 parameters loses
every row to `dropna`, and `get_twap` yields the exception value. -/
theorem get_twap_all_filtered_raises_witness :
    getTwap exFrameShort exParams = none := by
  have hk : kept exFrameShort exParams = [] := by
    simp only [kept, maxRows_exParams]
    decide
  apply get_twap_all_filtered_raises
  · rw [applyOk, hk]
    rfl
  · rw [survivors, hk]
    rfl

/-! ## C8: the fixed-point decoder -/

theorem compute_amount_out_length (l : List ℚ) (a : ℚ) :
    (compute_amount_out l a).length = l.length := by
  induction l with
  | nil => rfl
  | cons x xs ih => simp [compute_amount_out, ih]

theorem compute_amount_out_getD (l : List ℚ) (a : ℚ) :
    ∀ i, i < l.length →
      (compute_amount_out l a).getD i 0 = ((rshift112 (pyInt (l.getD i 0 * a)) : ℤ) : ℚ) := by
  induction l with
  | nil => intro i hi; simp at hi
  | cons x xs ih =>
      intro i hi
      cases i with
      | zero => rfl
      | succ i =>
          simp only [compute_amount_out, List.getD_cons_succ]
          exact ih i (by simpa using hi)

/-- C8: `compute_amount_out` maps an array of rates and a scale `amount_in`
to an array of the same length whose `i`-th element is
`int(rate[i] * amount_in) >> 112` (Python truncation toward zero for `int()`,
arithmetic shift for `>>`), and for `amount_in = 1` and an integer-valued
fixed-point rate `x` the element is exactly `x >> 112`. -/
theorem compute_amount_out_spec (l : List ℚ) (a : ℚ) :
    (compute_amount_out l a).length = l.length ∧
    (∀ i, i < l.length →
      (compute_amount_out l a).getD i 0 = ((rshift112 (pyInt (l.getD i 0 * a)) : ℤ) : ℚ)) ∧
    (∀ x : ℤ, compute_amount_out [(x : ℚ)] 1 = [((rshift112 x : ℤ) : ℚ)]) := by
  refine ⟨compute_amount_out_length l a, compute_amount_out_getD l a, fun x => ?_⟩
  simp [compute_amount_out, pyInt_intCast]

/-- C8 witness: decoding the one-element array `[2^112]` with `amount_in = 1`
yields `[1]`, and the length is preserved. -/
theorem compute_amount_out_spec_witness :
    (compute_amount_out [(2 ^ 112 : ℚ)] 1).length = 1 ∧
    (compute_amount_out [(2 ^ 112 : ℚ)] 1).getD 0 0 = 1 := by
  have h := compute_amount_out_spec [(2 ^ 112 : ℚ)] 1
  refine ⟨h.1, ?_⟩
  rw [h.2.1 0 (by norm_num)]
  norm_num [rshift112, pyInt]

/-! ## C2: the fixed-window rolling rate -/

/-- C2 counterexample: with `window = 2` on a uniformly spaced series
(`period = 1`, so `window = 2·period`, `k = 2`), the code's rate at row 2
is `(v2 - v1)/(t2 - t1) = 2` — a difference over `window - 1 = 1` sample —
while the claimed "exactly `window` samples apart" difference
`(v2 - v0)/(t2 - t0)` is `3/2`. -/
theorem fixed_twap_rate_counterexample :
    fixedRate exRows 2 2 = some 2 ∧ claimFixedRate exRows 2 2 = some (3 / 2) ∧
    fixedRate exRows 2 2 ≠ claimFixedRate exRows 2 2 := by
  have h1 : fixedRate exRows 2 2 = some 2 := by
    norm_num [fixedRate, exRows, List.getD]
  have h2 : claimFixedRate exRows 2 2 = some (3 / 2) := by
    norm_num [claimFixedRate, exRows, List.getD]
  refine ⟨h1, h2, ?_⟩
  rw [h1, h2]
  intro h
  rw [Option.some_inj] at h
  norm_num at h

/-- C2 (amended): the rolling rate differences accumulator values over a span
of `window` rows, i.e. `window - 1` samples apart; on a series with exact
uniform spacing `period` it equals the finite difference of value over
`window - 1` rows divided by `(window - 1) * period`. -/
theorem fixed_twap_rate_uniform_spacing (rows : List (ℤ × ℚ)) (t0 period : ℤ)
    (w r : ℕ) (hw : 2 ≤ w) (hr : w - 1 ≤ r) (hrl : r < rows.length)
    (hu : ∀ i, i < rows.length → (rows.getD i (0, 0)).1 = t0 + i * period) :
    fixedRate rows w r =
      some (((rows.getD r (0, 0)).2 - (rows.getD (r - (w - 1)) (0, 0)).2) /
        (((w : ℚ) - 1) * (period : ℚ))) := by
  rw [fixedRate, if_pos ⟨by omega, hr, hrl⟩]
  congr 1
  rw [hu r hrl, hu (r - (w - 1)) (by omega)]
  have h1 : ((r - (w - 1) : ℕ) : ℚ) = (r : ℚ) - ((w : ℚ) - 1) := by
    rw [Nat.cast_sub hr, Nat.cast_sub (by omega : 1 ≤ w)]
    push_cast
    ring
  congr 1
  push_cast
  rw [h1]
  ring

/-- C2 witness: on the uniformly spaced series `exRows` (`period = 1`) with
`window = 2`, the rate at row 2 is `(3 - 1)/((2 - 1)·1) = 2`. -/
theorem fixed_twap_rate_uniform_spacing_witness :
    fixedRate exRows 2 2 = some ((3 - 1) / (((2 : ℚ) - 1) * 1)) := by
  have h := fixed_twap_rate_uniform_spacing exRows 0 1 2 2 (by norm_num)
    (by norm_num) (by norm_num [exRows])
    (by decide)
  rw [h]
  norm_num [exRows, List.getD]

/-! ## C5: lag selection (`dynamic_window` + `idxmin`) -/

theorem idxminAux_spec (f : ℕ → ℤ) :
    ∀ (is : List ℕ) (best : ℕ), (best :: is).Sorted (· < ·) →
      (idxminAux f is best = best ∨ idxminAux f is best ∈ is) ∧
      f (idxminAux f is best) ≤ f best ∧
      (∀ i ∈ is, f (idxminAux f is best) ≤ f i) ∧
      (∀ j, (j = best ∨ j ∈ is) → j < idxminAux f is best →
        f (idxminAux f is best) < f j) := by
  intro is
  induction is with
  | nil =>
      intro best _
      refine ⟨Or.inl rfl, le_refl _, by simp, ?_⟩
      simp only [idxminAux]
      rintro j (rfl | hj) hlt
      · exact absurd hlt (lt_irrefl j)
      · simp at hj
  | cons i is ih =>
      intro best hsorted
      rw [List.sorted_cons] at hsorted
      obtain ⟨hblt, hsorted'⟩ := hsorted
      have hbi : best < i := hblt i (by simp)
      by_cases hf : f i < f best
      · have hred : idxminAux f (i :: is) best = idxminAux f is i := by
          simp [idxminAux, hf]
        have hs : (i :: is).Sorted (· < ·) := hsorted'
        obtain ⟨hmem, hle, hall, hfirst⟩ := ih i hs
        rw [hred]
        refine ⟨Or.inr ?_, ?_, ?_, ?_⟩
        · rcases hmem with h | h
          · rw [h]; exact List.mem_cons_self _ _
          · exact List.mem_cons_of_mem _ h
        · exact le_trans hle (le_of_lt hf)
        · intro x hx
          rcases List.mem_cons.mp hx with rfl | hx'
          · exact hle
          · exact hall x hx'
        · rintro j (rfl | hj) hlt
          · exact lt_of_le_of_lt hle hf
          · rcases List.mem_cons.mp hj with rfl | hj'
            · exact hfirst j (Or.inl rfl) hlt
            · exact hfirst j (Or.inr hj') hlt
      · have hred : idxminAux f (i :: is) best = idxminAux f is best := by
          simp [idxminAux, hf]
        have hs : (best :: is).Sorted (· < ·) := by
          rw [List.sorted_cons]
          rw [List.sorted_cons] at hsorted'
          exact ⟨fun b hb => hblt b (by simp [hb]), hsorted'.2⟩
        obtain ⟨hmem, hle, hall, hfirst⟩ := ih best hs
        rw [hred]
        refine ⟨?_, hle, ?_, ?_⟩
        · rcases hmem with h | h
          · exact Or.inl h
          · exact Or.inr (by simp [h])
        · intro x hx
          rcases List.mem_cons.mp hx with rfl | hx'
          · exact le_trans hle (not_lt.mp hf)
          · exact hall x hx'
        · rintro j hjmem hlt
          rcases hjmem with rfl | hj
          · exact hfirst j (Or.inl rfl) hlt
          · rcases List.mem_cons.mp hj with rfl | hj'
            · -- j = i, and the result lies strictly beyond i only if it is in is,
              -- in which case it strictly improved on best ≤ f i
              rcases hmem with hres | hres
              · rw [hres] at hlt
                exact absurd (lt_trans hbi hlt) (lt_irrefl best)
              · have hbr : best < idxminAux f is best := by
                  rw [List.sorted_cons] at hs
                  exact hs.1 _ hres
                have := hfirst best (Or.inl rfl) hbr
                exact lt_of_lt_of_le this (not_lt.mp hf)
            · exact hfirst j (Or.inr hj') hlt

theorem range'_one_eq_cons (n : ℕ) (hn : 1 ≤ n) :
    List.range' 1 n = 1 :: List.range' 2 (n - 1) := by
  obtain ⟨m, rfl⟩ : ∃ m, n = m + 1 := ⟨n - 1, by omega⟩
  simp [List.range'_succ]

theorem dynLag_spec (pc : PriceFrame) (window : ℤ) (maxLag r : ℕ)
    (hmax : 1 ≤ maxLag) :
    (1 ≤ dynLag pc window maxLag r ∧ dynLag pc window maxLag r ≤ maxLag) ∧
    (∀ i, 1 ≤ i → i ≤ maxLag →
      lagScore pc window r (dynLag pc window maxLag r) ≤ lagScore pc window r i) ∧
    (∀ i, 1 ≤ i → i < dynLag pc window maxLag r →
      lagScore pc window r (dynLag pc window maxLag r) < lagScore pc window r i) := by
  have hcons := range'_one_eq_cons maxLag hmax
  have hsorted : (1 :: List.range' 2 (maxLag - 1)).Sorted (· < ·) := by
    rw [← hcons]
    exact List.pairwise_lt_range' 1 maxLag
  obtain ⟨hmem, hle, hall, hfirst⟩ :=
    idxminAux_spec (lagScore pc window r) (List.range' 2 (maxLag - 1)) 1 hsorted
  have hdyn : dynLag pc window maxLag r =
      idxminAux (lagScore pc window r) (List.range' 2 (maxLag - 1)) 1 := rfl
  have hmem' : dynLag pc window maxLag r ∈ List.range' 1 maxLag := by
    rw [hcons, hdyn]
    rcases hmem with h | h
    · rw [h]; exact List.mem_cons_self _ _
    · exact List.mem_cons_of_mem _ h
  rw [List.mem_range'_1] at hmem'
  refine ⟨⟨hmem'.1, by omega⟩, ?_, ?_⟩
  · intro i h1 h2
    have hmem2 : i ∈ (1 : ℕ) :: List.range' 2 (maxLag - 1) := by
      rw [← hcons, List.mem_range'_1]
      omega
    rw [hdyn]
    rcases List.mem_cons.mp hmem2 with rfl | hi
    · exact hle
    · exact hall i hi
  · intro i h1 hlt
    have hmem2 : i ∈ (1 : ℕ) :: List.range' 2 (maxLag - 1) := by
      rw [← hcons, List.mem_range'_1]
      omega
    rw [hdyn] at hlt ⊢
    exact hfirst i (List.mem_cons.mp hmem2) hlt

/-- C5 counterexample: with `window = 90`, `period = 60` the code considers
`int((90/60 + 1) * 2) = 5` candidate lags, not `ceil(90/60 + 1) * 2 = 6` as
the claim's formula says; on a series spaced 15 s apart the two searches
select different lags at row 6 (5 versus the exact-window lag 6). -/
theorem dynamic_window_max_lag_counterexample :
    maxRows exParams90 = 5 ∧ claimMaxLag exParams90 = 6 ∧
    dynLag exFrameJitter 90 ((maxRows exParams90).toNat) 6 = 5 ∧
    dynLag exFrameJitter 90 ((claimMaxLag exParams90).toNat) 6 = 6 := by
  have h1 : maxRows exParams90 = 5 := maxRows_exParams90
  have h2 : claimMaxLag exParams90 = 6 := by
    norm_num [claimMaxLag, exParams90]
    rw [show ((⌈(5 / 2 : ℚ)⌉ : ℤ) = 3) from by (rw [Int.ceil_eq_iff]; norm_num)]
    norm_num
  refine ⟨h1, h2, ?_, ?_⟩
  · rw [h1]; decide
  · rw [h2]; decide

/-- C5 (amended): for a row with full lookback, `dynamic_window` selects a
lag in `1..max_lag` whose elapsed-time score `|elapsed(i) - window|` is
minimal, taking the smallest lag among ties — but with
`max_lag = int((window/period + 1) * 2)` (Python `int` truncation), not
`ceil(window/period + 1) * 2`. -/
theorem dynamic_window_argmin (pc : PriceFrame) (p : TwapParams) (r : ℕ)
    (hmax : 1 ≤ (maxRows p).toNat) (_hfull : (maxRows p).toNat ≤ r)
    (_hrow : r < pc.rows.length) :
    (1 ≤ lagOf pc p r ∧ lagOf pc p r ≤ (maxRows p).toNat) ∧
    (∀ i, 1 ≤ i → i ≤ (maxRows p).toNat →
      lagScore pc p.window r (lagOf pc p r) ≤ lagScore pc p.window r i) ∧
    (∀ i, 1 ≤ i → i < lagOf pc p r →
      lagScore pc p.window r (lagOf pc p r) < lagScore pc p.window r i) :=
  dynLag_spec pc p.window (maxRows p).toNat r hmax

/-- C5 witness: on the uniformly spaced frame `exFrameLong` at row 5, the
selected lag is 1, lies in `1..4`, and its score is minimal. -/
theorem dynamic_window_argmin_witness :
    (1 ≤ lagOf exFrameLong exParams 5 ∧ lagOf exFrameLong exParams 5 ≤ (maxRows exParams).toNat) ∧
    lagScore exFrameLong 60 5 (lagOf exFrameLong exParams 5) ≤ lagScore exFrameLong 60 5 2 := by
  have h := dynamic_window_argmin exFrameLong exParams 5
    (by rw [maxRows_exParams]; decide)
    (by rw [maxRows_exParams]; decide)
    (by decide)
  exact ⟨h.1, h.2.1 2 (by decide) (by rw [maxRows_exParams]; decide)⟩

/-! ## C6: which rows the dynamic-window TWAP keeps -/

theorem refRow_full (pc : PriceFrame) (p : TwapParams) (r : ℕ)
    (hfull : (maxRows p).toNat + lagOf pc p r ≤ r) :
    refRow pc p r = some (r - lagOf pc p r) := by
  simp only [refRow]
  rw [if_pos]
  omega

theorem dtRow_full (pc : PriceFrame) (p : TwapParams) (r : ℕ)
    (hfull : (maxRows p).toNat + lagOf pc p r ≤ r) :
    dtRow pc p r = some (ptime pc r - ptime pc (r - lagOf pc p r)) := by
  rw [dtRow, refRow_full pc p r hfull]
  rfl

theorem dpRow_full (pc : PriceFrame) (p : TwapParams) (r : ℕ)
    (hfull : (maxRows p).toNat + lagOf pc p r ≤ r) :
    dpRow pc p r = some (pval pc r - pval pc (r - lagOf pc p r)) := by
  rw [dpRow, refRow_full pc p r hfull]
  rfl

/-- C6 (amended): a row `r` whose selected lag looks back no further than the
dropped prefix (`max_rows + lag* ≤ r`) is kept exactly when it is a row of
the series, has the `max_rows` rows of history `dropna` requires, and its
`delta_time = timestamp[r] - timestamp[r - lag*]` is positive and inside
`[window - tolerance, window + tolerance]`; each row is tested independently
of every other row's fate.  (Rows with `max_rows ≤ r < max_rows + lag*`
instead difference against a wrapped row because of pandas negative `iloc`
indexing — see the counterexample.) -/
theorem dynamic_twap_row_filter (pc : PriceFrame) (p : TwapParams) (r : ℕ)
    (_hlag : 1 ≤ (maxRows p).toNat)
    (hfull : (maxRows p).toNat + lagOf pc p r ≤ r) :
    r ∈ survivors pc p ↔
      (r < pc.rows.length ∧
       0 < ptime pc r - ptime pc (r - lagOf pc p r) ∧
       p.window - p.tolerance ≤ ptime pc r - ptime pc (r - lagOf pc p r) ∧
       ptime pc r - ptime pc (r - lagOf pc p r) ≤ p.window + p.tolerance) := by
  have hdt := dtRow_full pc p r hfull
  constructor
  · intro h
    rw [survivors, List.mem_filter] at h
    obtain ⟨hkept, hkeep⟩ := h
    rw [kept, List.mem_filter, List.mem_range] at hkept
    rw [keepRow, hdt] at hkeep
    simp only [Option.map_some', Option.getD_some, decide_eq_true_eq] at hkeep
    exact ⟨hkept.1, hkeep⟩
  · rintro ⟨h1, h2, h3, h4⟩
    rw [survivors, List.mem_filter]
    constructor
    · rw [kept, List.mem_filter, List.mem_range]
      exact ⟨h1, by simp only [decide_eq_true_eq]; omega⟩
    · rw [keepRow, hdt]
      simp only [Option.map_some', Option.getD_some, decide_eq_true_eq]
      exact ⟨h2, h3, h4⟩

/-- C6 counterexample: in `exFrameBoundary` row 4 has the full `max_rows = 4`
rows of history and its spec-side `delta_time = timestamp[4] - timestamp[3] = 60`
is positive and inside `[50, 70]`, yet the code drops the row: `delta_window`
computes `values.iloc[0 - 1]`, which wraps to the last row of the frame and
yields `dt = 0`. -/
theorem dynamic_twap_row_filter_counterexample :
    lagOf exFrameBoundary exParams 4 = 1 ∧
    (maxRows exParams).toNat ≤ 4 ∧ 4 < exFrameBoundary.rows.length ∧
    ptime exFrameBoundary 4 - ptime exFrameBoundary 3 = 60 ∧
    exParams.window - exParams.tolerance ≤ 60 ∧
    (60 : ℤ) ≤ exParams.window + exParams.tolerance ∧
    dtRow exFrameBoundary exParams 4 = some 0 ∧
    4 ∉ survivors exFrameBoundary exParams := by
  have hM : (maxRows exParams).toNat = 4 := by rw [maxRows_exParams]; rfl
  have hlag : lagOf exFrameBoundary exParams 4 = 1 := by
    rw [lagOf, hM]
    decide
  have href : refRow exFrameBoundary exParams 4 = some 4 := by
    simp only [refRow, hM, hlag]
    decide
  have hdt : dtRow exFrameBoundary exParams 4 = some 0 := by
    rw [dtRow, href]
    decide
  have hkeep : keepRow exFrameBoundary exParams 4 = false := by
    rw [keepRow, hdt]
    decide
  refine ⟨hlag, by omega, by decide, by decide, by decide, by decide, hdt, ?_⟩
  intro h
  rw [survivors, List.mem_filter] at h
  rw [hkeep] at h
  exact absurd h.2 (by decide)

/-- C6 witness: row 5 of the uniformly spaced frame `exFrameLong` (lag 1,
`dt = 60 ∈ [50, 70]`) is kept. -/
theorem dynamic_twap_row_filter_witness :
    5 ∈ survivors exFrameLong exParams := by
  have hM : (maxRows exParams).toNat = 4 := by rw [maxRows_exParams]; rfl
  have hlag : lagOf exFrameLong exParams 5 = 1 := by
    rw [lagOf, hM]
    decide
  refine (dynamic_twap_row_filter exFrameLong exParams 5 (by omega) (by omega)).mpr ?_
  rw [hlag]
  refine ⟨by decide, by decide, by decide, by decide⟩

/-! ## C7: the surviving rows' TWAP values -/

theorem getTwap_cons (pc : PriceFrame) (p : TwapParams) (a : ℕ) (t : List ℕ)
    (hok : applyOk pc p = true) (h : survivors pc p = a :: t) :
    getTwap pc p = some ((((a :: t).map fun r =>
      (⟨ptime pc r, (dtRow pc p r).getD 0, twapRow pc p r⟩ : TWAPSample))).filter
        fun smp => decide (0 < smp.twap)) := by
  rw [getTwap, if_pos hok, h]

theorem claimTickTwap_pos (pc : PriceFrame) (p : TwapParams) (r : ℕ) :
    0 < claimTickTwap pc p r := by
  rw [claimTickTwap]
  split
  · exact inv_pos.mpr (Real.rpow_pos_of_pos (by norm_num) _)
  · exact Real.rpow_pos_of_pos (by norm_num) _

/-- C7 (amended): for surviving rows whose selected lag stays inside the kept
frame (`max_rows + lag* ≤ r`), the output TWAP is
`1.0001 ^ ((value[r] - value[r - lag*]) / delta_time)`, inverted when the
frame's field is the inverse accumulator `tick_cumulative1`.  (Surviving rows
with `r < max_rows + lag*` difference against a wrapped row instead — see the
counterexample.) -/
theorem get_twap_tick_price (pc : PriceFrame) (p : TwapParams)
    (hok : applyOk pc p = true)
    (hfull : ∀ r ∈ survivors pc p, (maxRows p).toNat + lagOf pc p r ≤ r)
    (hne : survivors pc p ≠ []) :
    getTwap pc p = some ((survivors pc p).map fun r =>
      ⟨ptime pc r, ptime pc r - ptime pc (r - lagOf pc p r), claimTickTwap pc p r⟩) := by
  obtain ⟨a, t, h⟩ : ∃ a t, survivors pc p = a :: t := by
    cases hs : survivors pc p with
    | nil => exact absurd hs hne
    | cons a t => exact ⟨a, t, rfl⟩
  rw [getTwap_cons pc p a t hok h, h]
  have hmapeq : ((a :: t).map fun r =>
      (⟨ptime pc r, (dtRow pc p r).getD 0, twapRow pc p r⟩ : TWAPSample)) =
      (a :: t).map fun r =>
        (⟨ptime pc r, ptime pc r - ptime pc (r - lagOf pc p r),
          claimTickTwap pc p r⟩ : TWAPSample) := by
    apply List.map_congr_left
    intro r hr
    rw [← h] at hr
    have h1 := dtRow_full pc p r (hfull r hr)
    have h2 := dpRow_full pc p r (hfull r hr)
    simp only [twapRow, claimTickTwap, h1, h2, Option.getD_some]
  rw [hmapeq]
  congr 1
  apply List.filter_eq_self.mpr
  intro smp hsmp
  obtain ⟨r, _, rfl⟩ := List.mem_map.mp hsmp
  simpa using claimTickTwap_pos pc p r

/-- C7 witness: on `exFrameLong` the four surviving rows all have full
lookback; the output is exactly their spec-side TWAP samples. -/
theorem get_twap_tick_price_witness :
    getTwap exFrameLong exParams = some ([5, 6, 7, 8].map fun r =>
      ⟨ptime exFrameLong r,
       ptime exFrameLong r - ptime exFrameLong (r - lagOf exFrameLong exParams r),
       claimTickTwap exFrameLong exParams r⟩) := by
  have hM : (maxRows exParams).toNat = 4 := by rw [maxRows_exParams]; rfl
  have hs : survivors exFrameLong exParams = [5, 6, 7, 8] := by
    simp only [survivors, kept, keepRow, dtRow, refRow, lagOf, hM]
    decide
  have h := get_twap_tick_price exFrameLong exParams ?_ ?_ ?_
  · rw [h, hs]
  · simp only [applyOk, kept, refRow, lagOf, hM]
    decide
  · intro r hr
    rw [hs] at hr
    fin_cases hr
    all_goals (rw [lagOf, hM]; decide)
  · rw [hs]
    decide

/-- C7 counterexample: in `exFrameWrap` row 7 survives the filters with
selected lag 3, but `7 < max_rows + lag* = 9`, so `delta_window` wraps:
the emitted TWAP is `1.0001 ^ ((v7 - v6)/(t7 - t6)) = 1.0001 ^ 1`, while the
claim's formula `1.0001 ^ ((v7 - v4)/(t7 - t4)) = 1.0001 ^ (11/6)` differs. -/
theorem get_twap_tick_price_counterexample :
    survivors exFrameWrap exParamsWrap = [7] ∧
    lagOf exFrameWrap exParamsWrap 7 = 3 ∧
    claimTickTwap exFrameWrap exParamsWrap 7 = (1.0001 : ℝ) ^ ((11 : ℝ) / 6) ∧
    getTwap exFrameWrap exParamsWrap =
      some [⟨200, 55, (1.0001 : ℝ) ^ (1 : ℝ)⟩] ∧
    (1.0001 : ℝ) ^ (1 : ℝ) ≠ (1.0001 : ℝ) ^ ((11 : ℝ) / 6) := by
  have hM : (maxRows exParamsWrap).toNat = 6 := by rw [maxRows_exParamsWrap]; rfl
  have hlag : lagOf exFrameWrap exParamsWrap 7 = 3 := by
    rw [lagOf, hM]
    decide
  have hs : survivors exFrameWrap exParamsWrap = [7] := by
    simp only [survivors, kept, keepRow, dtRow, refRow, lagOf, hM]
    decide
  have hok : applyOk exFrameWrap exParamsWrap = true := by
    simp only [applyOk, kept, refRow, lagOf, hM]
    decide
  have href : refRow exFrameWrap exParamsWrap 7 = some 6 := by
    simp only [refRow, lagOf, hM]
    decide
  have hdt : dtRow exFrameWrap exParamsWrap 7 = some 55 := by
    rw [dtRow, href]
    decide
  have hdp : dpRow exFrameWrap exParamsWrap 7 = some 55 := by
    rw [dpRow, href]
    decide
  have hclaim : claimTickTwap exFrameWrap exParamsWrap 7 = (1.0001 : ℝ) ^ ((11 : ℝ) / 6) := by
    simp only [claimTickTwap, hlag]
    rw [if_neg (by decide)]
    norm_num [ptime, pval, exFrameWrap, List.getD]
  have htw : twapRow exFrameWrap exParamsWrap 7 = (1.0001 : ℝ) ^ (1 : ℝ) := by
    simp only [twapRow, hdp, hdt, Option.getD_some]
    rw [if_neg (by decide)]
    norm_num
  have hget : getTwap exFrameWrap exParamsWrap =
      some [⟨200, 55, (1.0001 : ℝ) ^ (1 : ℝ)⟩] := by
    rw [getTwap_cons exFrameWrap exParamsWrap 7 [] hok hs]
    have hpos : (0 : ℝ) < (1.0001 : ℝ) ^ (1 : ℝ) :=
      Real.rpow_pos_of_pos (by norm_num) _
    simp only [List.map, htw, hdt, Option.getD_some, List.filter_cons,
      List.filter_nil, decide_eq_true_eq]
    rw [if_pos hpos]
    rfl
  have hne : (1.0001 : ℝ) ^ (1 : ℝ) ≠ (1.0001 : ℝ) ^ ((11 : ℝ) / 6) := by
    apply ne_of_lt
    rw [Real.rpow_lt_rpow_left_iff (by norm_num : (1 : ℝ) < 1.0001)]
    norm_num
  exact ⟨hs, hlag, hclaim, hget, hne⟩

/-! ## C3: the closed-form VaR bracket -/

theorem varCell_eq (ppf : ℝ → ℝ) (mu ss t n a : ℝ) (hss : 0 ≤ ss)
    (hnt : 0 ≤ n * t) (ha0 : 0 < a) (ha1 : a < 1) :
    varCell ppf mu ss t n a =
      some (Real.exp (mu * n * t + Real.sqrt ss * Real.sqrt (n * t) * ppf (1 - a)) - 1) := by
  rw [varCell, fsqrt, if_pos hss, fsqrt, if_pos hnt, fppf,
    if_pos ⟨by linarith, by linarith⟩]
  rfl

/-- C3: for `sigma_sqrd ≥ 0`, positive `t` and `n`, and every alpha in
`(0,1)`, `calc_vars` returns
`exp(mu*n*t + sqrt(sigma_sqrd*n*t) * ppf(1 - alpha)) - 1` per alpha, where
`ppf` is the inverse standard normal CDF; with `mu = 0` and `sigma_sqrd = 0`
every cell is `0`. -/
theorem calc_vars_formula (ppf : ℝ → ℝ) (mu ss t n : ℝ) (alphas : List ℝ)
    (hss : 0 ≤ ss) (ht : 0 < t) (hn : 0 < n)
    (ha : ∀ a ∈ alphas, 0 < a ∧ a < 1) :
    calc_vars ppf mu ss t n alphas =
      alphas.map (fun a =>
        some (Real.exp (mu * n * t + Real.sqrt (ss * (n * t)) * ppf (1 - a)) - 1)) ∧
    calc_vars ppf 0 0 t n alphas = alphas.map (fun _ => some 0) := by
  have hnt : 0 ≤ n * t := le_of_lt (mul_pos hn ht)
  constructor
  · apply List.map_congr_left
    intro a haa
    rw [varCell_eq ppf mu ss t n a hss hnt (ha a haa).1 (ha a haa).2,
      Real.sqrt_mul hss]
  · apply List.map_congr_left
    intro a haa
    rw [varCell_eq ppf 0 0 t n a le_rfl hnt (ha a haa).1 (ha a haa).2]
    simp

/-- C3 witness: with the identity in place of the inverse CDF,
`mu = ss = t = n = 1` and `alpha = 1/2` give `exp(3/2) - 1`, and the
degenerate case gives `0`. -/
theorem calc_vars_formula_witness :
    calc_vars (fun q => q) 1 1 1 1 [1 / 2] = [some (Real.exp (3 / 2) - 1)] ∧
    calc_vars (fun q => q) 0 0 1 1 [1 / 2] = [some 0] := by
  have h := calc_vars_formula (fun q => q) 1 1 1 1 [1 / 2] (by norm_num)
    (by norm_num) (by norm_num)
    (by intro a ha; rw [List.mem_singleton] at ha; rw [ha]; norm_num)
  obtain ⟨h1, h2⟩ := h
  constructor
  · rw [h1]
    norm_num [Real.sqrt_one]
  · rw [h2]
    norm_num

/-! ## C9: monotonicity of the |VaR| grid -/

theorem probitApprox_strictMono : StrictMono probitApprox := by
  intro x y hxy
  rw [probitApprox, probitApprox]
  split_ifs with hx hy hy
  · linarith
  · have h1 : (329 / 90 : ℝ) * (x - 1 / 2) ≤ 1645 / 1000 := by linarith
    have h2 : (1645 / 1000 : ℝ) < 1645 / 1000 + (681 / 40) * (y - 19 / 20) := by linarith
    linarith
  · linarith
  · linarith

theorem probitApprox_half : probitApprox (1 / 2) = 0 := by
  rw [probitApprox, if_pos (by norm_num)]
  norm_num

theorem probitApprox_95 : probitApprox (19 / 20) = 329 / 200 := by
  rw [probitApprox, if_pos le_rfl]
  norm_num

theorem probitApprox_99 : probitApprox (99 / 100) = 1163 / 500 := by
  rw [probitApprox, if_neg (by norm_num)]
  norm_num

theorem probitApprox_30 : probitApprox (3 / 10) = -(329 / 450) := by
  rw [probitApprox, if_pos (by norm_num)]
  norm_num

theorem probitApprox_40 : probitApprox (2 / 5) = -(329 / 900) := by
  rw [probitApprox, if_pos (by norm_num)]
  norm_num

/-- For *any* inverse-CDF model whose values at the `0.95` and `0.99`
quantiles are positive, increasing and below `10` — elementary facts of the
standard normal inverse CDF (`1.64485…` and `2.32635…`) — drift `mu = -10`
with `sigma_sqrd = 1`, `t = n = 1` makes both exponents negative, so both
VaR cells lie in `(-1, 0)` and `|VaR|` strictly *decreases* when alpha drops
from `0.05` to `0.01`. -/
theorem varCell_nonmono_in_alpha_neg_drift (ppf : ℝ → ℝ)
    (hz1 : 0 < ppf (19 / 20)) (hz12 : ppf (19 / 20) < ppf (99 / 100))
    (hz2 : ppf (99 / 100) < 10) :
    ∀ x1 x2, varCell ppf (-10) 1 1 1 (5 / 100) = some x1 →
      varCell ppf (-10) 1 1 1 (1 / 100) = some x2 → |x2| < |x1| := by
  intro x1 x2 hx1 hx2
  rw [varCell_eq ppf (-10) 1 1 1 (5 / 100) (by norm_num) (by norm_num)
    (by norm_num) (by norm_num)] at hx1
  rw [varCell_eq ppf (-10) 1 1 1 (1 / 100) (by norm_num) (by norm_num)
    (by norm_num) (by norm_num)] at hx2
  rw [Option.some_inj] at hx1 hx2
  rw [show (1 - 5 / 100 : ℝ) = 19 / 20 from by norm_num] at hx1
  rw [show (1 - 1 / 100 : ℝ) = 99 / 100 from by norm_num] at hx2
  have hs : Real.sqrt 1 * Real.sqrt (1 * 1) = 1 := by
    rw [show ((1 : ℝ) * 1) = 1 from by norm_num, Real.sqrt_one]
    norm_num
  rw [hs] at hx1 hx2
  have he1 : Real.exp ((-10 : ℝ) * 1 * 1 + 1 * ppf (19 / 20)) < 1 := by
    rw [Real.exp_lt_one_iff]
    linarith
  have he2 : Real.exp ((-10 : ℝ) * 1 * 1 + 1 * ppf (99 / 100)) < 1 := by
    rw [Real.exp_lt_one_iff]
    linarith
  have hee : Real.exp ((-10 : ℝ) * 1 * 1 + 1 * ppf (19 / 20)) <
      Real.exp ((-10 : ℝ) * 1 * 1 + 1 * ppf (99 / 100)) := by
    rw [Real.exp_lt_exp]
    linarith
  rw [← hx1, ← hx2, abs_of_neg (by linarith), abs_of_neg (by linarith)]
  linarith

/-- For *any* inverse-CDF model whose values at the `0.3` and `0.4`
quantiles are negative and increasing — elementary facts of the standard
normal inverse CDF (`-0.5244…` and `-0.2533…`) — even the nonnegative drift
`mu = 0` (with `sigma_sqrd = 1`, `t = n = 1`) gives exponents below zero for
alphas above `1/2`, so `|VaR|` strictly *decreases* when alpha drops from
`0.7` to `0.6`. -/
theorem varCell_nonmono_in_alpha_zero_drift (ppf : ℝ → ℝ)
    (hz34 : ppf (3 / 10) < ppf (2 / 5)) (hz4 : ppf (2 / 5) < 0) :
    ∀ x1 x2, varCell ppf 0 1 1 1 (7 / 10) = some x1 →
      varCell ppf 0 1 1 1 (3 / 5) = some x2 → |x2| < |x1| := by
  intro x1 x2 hx1 hx2
  rw [varCell_eq ppf 0 1 1 1 (7 / 10) (by norm_num) (by norm_num)
    (by norm_num) (by norm_num)] at hx1
  rw [varCell_eq ppf 0 1 1 1 (3 / 5) (by norm_num) (by norm_num)
    (by norm_num) (by norm_num)] at hx2
  rw [Option.some_inj] at hx1 hx2
  rw [show (1 - 7 / 10 : ℝ) = 3 / 10 from by norm_num] at hx1
  rw [show (1 - 3 / 5 : ℝ) = 2 / 5 from by norm_num] at hx2
  have hs : Real.sqrt 1 * Real.sqrt (1 * 1) = 1 := by
    rw [show ((1 : ℝ) * 1) = 1 from by norm_num, Real.sqrt_one]
    norm_num
  rw [hs] at hx1 hx2
  have he1 : Real.exp ((0 : ℝ) * 1 * 1 + 1 * ppf (3 / 10)) < 1 := by
    rw [Real.exp_lt_one_iff]
    linarith
  have he2 : Real.exp ((0 : ℝ) * 1 * 1 + 1 * ppf (2 / 5)) < 1 := by
    rw [Real.exp_lt_one_iff]
    linarith
  have hee : Real.exp ((0 : ℝ) * 1 * 1 + 1 * ppf (3 / 10)) <
      Real.exp ((0 : ℝ) * 1 * 1 + 1 * ppf (2 / 5)) := by
    rw [Real.exp_lt_exp]
    linarith
  rw [← hx1, ← hx2, abs_of_neg (by linarith), abs_of_neg (by linarith)]
  linarith

/-- C9 counterexample: `probitApprox` is strictly increasing, zero at `1/2`,
and matches `scipy.stats.norm.ppf` to four decimal places at the quantiles
used (`0.95 ↦ 1.645`, probit `1.64485…`; `0.99 ↦ 2.326`, probit `2.32635…`).
At `mu = -10`, `sigma_sqrd = 1 > 0`, `t = n = 1`, both exponents are deeply
negative, so both VaR cells lie in `(-1, 0)` and `|VaR|` strictly
*decreases* when alpha drops from `0.05` to `0.01` — the violation rests
only on `0 < Φ⁻¹(0.95) < Φ⁻¹(0.99) < 10`
(`varCell_nonmono_in_alpha_neg_drift`), true of the standard normal inverse
CDF, so `calc_vars` with the real `norm.ppf` violates the claim at this same
input.  The second instance, `mu = 0` with alpha dropping from `0.7` to
`0.6`, rests only on `Φ⁻¹(0.3) < Φ⁻¹(0.4) < 0`
(`varCell_nonmono_in_alpha_zero_drift`) and shows the failure also for
nonnegative drift once alpha exceeds `1/2`, forcing the `alpha < 1/2`
restriction of the amended claim. -/
theorem calc_vars_abs_monotone_counterexample :
    StrictMonoOn probitApprox (Set.Ioo (0 : ℝ) 1) ∧
    probitApprox (1 / 2) = 0 ∧
    probitApprox (19 / 20) = 329 / 200 ∧
    probitApprox (99 / 100) = 1163 / 500 ∧
    varCell probitApprox (-10) 1 1 1 (5 / 100) =
      some (Real.exp (-(1671 / 200)) - 1) ∧
    varCell probitApprox (-10) 1 1 1 (1 / 100) =
      some (Real.exp (-(3837 / 500)) - 1) ∧
    |Real.exp (-(3837 / 500) : ℝ) - 1| < |Real.exp (-(1671 / 200) : ℝ) - 1| ∧
    probitApprox (3 / 10) = -(329 / 450) ∧
    probitApprox (2 / 5) = -(329 / 900) ∧
    varCell probitApprox 0 1 1 1 (7 / 10) =
      some (Real.exp (-(329 / 450)) - 1) ∧
    varCell probitApprox 0 1 1 1 (3 / 5) =
      some (Real.exp (-(329 / 900)) - 1) ∧
    |Real.exp (-(329 / 900) : ℝ) - 1| < |Real.exp (-(329 / 450) : ℝ) - 1| := by
  have hv1 : varCell probitApprox (-10) 1 1 1 (5 / 100) =
      some (Real.exp (-(1671 / 200)) - 1) := by
    rw [varCell_eq probitApprox (-10) 1 1 1 (5 / 100) (by norm_num) (by norm_num)
      (by norm_num) (by norm_num)]
    rw [show ((-10 : ℝ) * 1 * 1 + Real.sqrt 1 * Real.sqrt (1 * 1) *
        probitApprox (1 - 5 / 100)) = -(1671 / 200) from by
      rw [show (1 - 5 / 100 : ℝ) = 19 / 20 from by norm_num, probitApprox_95,
        show ((1 : ℝ) * 1) = 1 from by norm_num, Real.sqrt_one]
      norm_num]
  have hv2 : varCell probitApprox (-10) 1 1 1 (1 / 100) =
      some (Real.exp (-(3837 / 500)) - 1) := by
    rw [varCell_eq probitApprox (-10) 1 1 1 (1 / 100) (by norm_num) (by norm_num)
      (by norm_num) (by norm_num)]
    rw [show ((-10 : ℝ) * 1 * 1 + Real.sqrt 1 * Real.sqrt (1 * 1) *
        probitApprox (1 - 1 / 100)) = -(3837 / 500) from by
      rw [show (1 - 1 / 100 : ℝ) = 99 / 100 from by norm_num, probitApprox_99,
        show ((1 : ℝ) * 1) = 1 from by norm_num, Real.sqrt_one]
      norm_num]
  have hv3 : varCell probitApprox 0 1 1 1 (7 / 10) =
      some (Real.exp (-(329 / 450)) - 1) := by
    rw [varCell_eq probitApprox 0 1 1 1 (7 / 10) (by norm_num) (by norm_num)
      (by norm_num) (by norm_num)]
    rw [show ((0 : ℝ) * 1 * 1 + Real.sqrt 1 * Real.sqrt (1 * 1) *
        probitApprox (1 - 7 / 10)) = -(329 / 450) from by
      rw [show (1 - 7 / 10 : ℝ) = 3 / 10 from by norm_num, probitApprox_30,
        show ((1 : ℝ) * 1) = 1 from by norm_num, Real.sqrt_one]
      norm_num]
  have hv4 : varCell probitApprox 0 1 1 1 (3 / 5) =
      some (Real.exp (-(329 / 900)) - 1) := by
    rw [varCell_eq probitApprox 0 1 1 1 (3 / 5) (by norm_num) (by norm_num)
      (by norm_num) (by norm_num)]
    rw [show ((0 : ℝ) * 1 * 1 + Real.sqrt 1 * Real.sqrt (1 * 1) *
        probitApprox (1 - 3 / 5)) = -(329 / 900) from by
      rw [show (1 - 3 / 5 : ℝ) = 2 / 5 from by norm_num, probitApprox_40,
        show ((1 : ℝ) * 1) = 1 from by norm_num, Real.sqrt_one]
      norm_num]
  have hi1 := varCell_nonmono_in_alpha_neg_drift probitApprox
    (by rw [probitApprox_95]; norm_num)
    (by rw [probitApprox_95, probitApprox_99]; norm_num)
    (by rw [probitApprox_99]; norm_num)
    (Real.exp (-(1671 / 200)) - 1) (Real.exp (-(3837 / 500)) - 1) hv1 hv2
  have hi2 := varCell_nonmono_in_alpha_zero_drift probitApprox
    (by rw [probitApprox_30, probitApprox_40]; norm_num)
    (by rw [probitApprox_40]; norm_num)
    (Real.exp (-(329 / 450)) - 1) (Real.exp (-(329 / 900)) - 1) hv3 hv4
  exact ⟨probitApprox_strictMono.strictMonoOn _, probitApprox_half,
    probitApprox_95, probitApprox_99, hv1, hv2, hi1,
    probitApprox_30, probitApprox_40, hv3, hv4, hi2⟩

/-- C9 (amended): for a probit-like `ppf` (strictly increasing on `(0,1)`,
zero at `1/2`), fixed `mu ≥ 0`, `sigma_sqrd > 0` and `t > 0`, the magnitude
`|VaR(alpha, n)|` strictly increases as `alpha` decreases below `1/2` at
fixed `n > 0`, and strictly increases in `n` at fixed `alpha < 1/2`.  (For
negative drift the claim fails — see the counterexample.) -/
theorem calc_vars_abs_monotone (ppf : ℝ → ℝ)
    (hmono : StrictMonoOn ppf (Set.Ioo (0 : ℝ) 1)) (hhalf : ppf (1 / 2) = 0)
    (mu ss t : ℝ) (hmu : 0 ≤ mu) (hss : 0 < ss) (ht : 0 < t) :
    (∀ n a1 a2 x1 x2, 0 < n → 0 < a2 → a2 < a1 → a1 < 1 / 2 →
      varCell ppf mu ss t n a1 = some x1 → varCell ppf mu ss t n a2 = some x2 →
      |x1| < |x2|) ∧
    (∀ a n1 n2 x1 x2, 0 < a → a < 1 / 2 → 0 < n1 → n1 < n2 →
      varCell ppf mu ss t n1 a = some x1 → varCell ppf mu ss t n2 a = some x2 →
      |x1| < |x2|) := by
  have hhalf_mem : (1 / 2 : ℝ) ∈ Set.Ioo (0 : ℝ) 1 := by norm_num
  have hppf_pos : ∀ a : ℝ, 0 < a → a < 1 / 2 → 0 < ppf (1 - a) := by
    intro a h0 h2
    have hmem : (1 - a) ∈ Set.Ioo (0 : ℝ) 1 := by constructor <;> linarith
    have := hmono hhalf_mem hmem (by linarith)
    linarith [hhalf]
  have hS : 0 < Real.sqrt ss := Real.sqrt_pos.mpr hss
  constructor
  · intro n a1 a2 x1 x2 hn h2 h21 h1 hx1 hx2
    have hnt : 0 ≤ n * t := le_of_lt (mul_pos hn ht)
    rw [varCell_eq ppf mu ss t n a1 (le_of_lt hss) hnt (by linarith) (by linarith)] at hx1
    rw [varCell_eq ppf mu ss t n a2 (le_of_lt hss) hnt (by linarith) (by linarith)] at hx2
    rw [Option.some_inj] at hx1 hx2
    have hR : 0 < Real.sqrt (n * t) := Real.sqrt_pos.mpr (mul_pos hn ht)
    have hz1 : 0 < ppf (1 - a1) := hppf_pos a1 (by linarith) h1
    have hz12 : ppf (1 - a1) < ppf (1 - a2) := by
      apply hmono
      · constructor <;> linarith
      · constructor <;> linarith
      · linarith
    have hmunt : 0 ≤ mu * n * t := by
      rw [mul_assoc]
      exact mul_nonneg hmu (le_of_lt (mul_pos hn ht))
    have hp1 : 0 ≤ mu * n * t + Real.sqrt ss * Real.sqrt (n * t) * ppf (1 - a1) := by
      have : 0 < Real.sqrt ss * Real.sqrt (n * t) * ppf (1 - a1) :=
        mul_pos (mul_pos hS hR) hz1
      linarith
    have hlt : mu * n * t + Real.sqrt ss * Real.sqrt (n * t) * ppf (1 - a1) <
        mu * n * t + Real.sqrt ss * Real.sqrt (n * t) * ppf (1 - a2) := by
      have := mul_lt_mul_of_pos_left hz12 (mul_pos hS hR)
      linarith
    rw [← hx1, ← hx2]
    rw [abs_of_nonneg (by linarith [Real.one_le_exp hp1]),
      abs_of_nonneg (by linarith [Real.one_le_exp (le_trans hp1 (le_of_lt hlt))])]
    have := Real.exp_lt_exp.mpr hlt
    linarith
  · intro a n1 n2 x1 x2 ha0 ha2 hn1 hn12 hx1 hx2
    have hnt1 : 0 ≤ n1 * t := le_of_lt (mul_pos hn1 ht)
    have hn2 : 0 < n2 := lt_trans hn1 hn12
    have hnt2 : 0 ≤ n2 * t := le_of_lt (mul_pos hn2 ht)
    rw [varCell_eq ppf mu ss t n1 a (le_of_lt hss) hnt1 ha0 (by linarith)] at hx1
    rw [varCell_eq ppf mu ss t n2 a (le_of_lt hss) hnt2 ha0 (by linarith)] at hx2
    rw [Option.some_inj] at hx1 hx2
    have hR1 : 0 < Real.sqrt (n1 * t) := Real.sqrt_pos.mpr (mul_pos hn1 ht)
    have hRlt : Real.sqrt (n1 * t) < Real.sqrt (n2 * t) :=
      Real.sqrt_lt_sqrt hnt1 (by nlinarith)
    have hz : 0 < ppf (1 - a) := hppf_pos a ha0 ha2
    have hmunt1 : 0 ≤ mu * n1 * t := by
      rw [mul_assoc]
      exact mul_nonneg hmu hnt1
    have hmuntle : mu * n1 * t ≤ mu * n2 * t := by nlinarith
    have hp1 : 0 ≤ mu * n1 * t + Real.sqrt ss * Real.sqrt (n1 * t) * ppf (1 - a) := by
      have : 0 < Real.sqrt ss * Real.sqrt (n1 * t) * ppf (1 - a) :=
        mul_pos (mul_pos hS hR1) hz
      linarith
    have hlt : mu * n1 * t + Real.sqrt ss * Real.sqrt (n1 * t) * ppf (1 - a) <
        mu * n2 * t + Real.sqrt ss * Real.sqrt (n2 * t) * ppf (1 - a) := by
      have h1 : Real.sqrt ss * Real.sqrt (n1 * t) * ppf (1 - a) <
          Real.sqrt ss * Real.sqrt (n2 * t) * ppf (1 - a) := by
        apply mul_lt_mul_of_pos_right _ hz
        exact mul_lt_mul_of_pos_left hRlt hS
      linarith
    rw [← hx1, ← hx2]
    rw [abs_of_nonneg (by linarith [Real.one_le_exp hp1]),
      abs_of_nonneg (by linarith [Real.one_le_exp (le_trans hp1 (le_of_lt hlt))])]
    have := Real.exp_lt_exp.mpr hlt
    linarith

/-- C9 witness: with `probitApprox` for the inverse CDF, `mu = 0`,
`ss = t = n = 1`, lowering alpha from `1/4` to `1/8` strictly increases
`|VaR|`: `|exp(329/360) - 1| < |exp(329/240) - 1|`. -/
theorem calc_vars_abs_monotone_witness :
    |Real.exp ((329 : ℝ) / 360) - 1| < |Real.exp ((329 : ℝ) / 240) - 1| := by
  have hva : varCell probitApprox 0 1 1 1 (1 / 4) =
      some (Real.exp (329 / 360) - 1) := by
    rw [varCell_eq probitApprox 0 1 1 1 (1 / 4) (by norm_num) (by norm_num)
      (by norm_num) (by norm_num)]
    rw [show ((0 : ℝ) * 1 * 1 + Real.sqrt 1 * Real.sqrt (1 * 1) *
        probitApprox (1 - 1 / 4)) = 329 / 360 from by
      rw [show (1 - 1 / 4 : ℝ) = 3 / 4 from by norm_num,
        show probitApprox (3 / 4) = 329 / 360 from by
          rw [probitApprox, if_pos (by norm_num)]; norm_num,
        show ((1 : ℝ) * 1) = 1 from by norm_num, Real.sqrt_one]
      norm_num]
  have hvb : varCell probitApprox 0 1 1 1 (1 / 8) =
      some (Real.exp (329 / 240) - 1) := by
    rw [varCell_eq probitApprox 0 1 1 1 (1 / 8) (by norm_num) (by norm_num)
      (by norm_num) (by norm_num)]
    rw [show ((0 : ℝ) * 1 * 1 + Real.sqrt 1 * Real.sqrt (1 * 1) *
        probitApprox (1 - 1 / 8)) = 329 / 240 from by
      rw [show (1 - 1 / 8 : ℝ) = 7 / 8 from by norm_num,
        show probitApprox (7 / 8) = 329 / 240 from by
          rw [probitApprox, if_pos (by norm_num)]; norm_num,
        show ((1 : ℝ) * 1) = 1 from by norm_num, Real.sqrt_one]
      norm_num]
  exact (calc_vars_abs_monotone probitApprox
    (probitApprox_strictMono.strictMonoOn _) probitApprox_half
    0 1 1 le_rfl one_pos one_pos).1 1 (1 / 4) (1 / 8)
    (Real.exp ((329 : ℝ) / 360) - 1) (Real.exp ((329 : ℝ) / 240) - 1)
    one_pos (by norm_num) (by norm_num) (by norm_num) hva hvb

/-! ## C1: `get_stat` constructs its record unconditionally -/

theorem fCalcVars_length (ppf : ℝ → ℝ) (mu ss : Option ℝ) (t n : ℝ)
    (alphas : List ℝ) : (fCalcVars ppf mu ss t n alphas).length = alphas.length := by
  cases mu <;> cases ss <;> simp [fCalcVars, calc_vars]

/-- C1 (amended): `get_stat` never skips — for every timestamp, sample and
parameter set it assembles the full record: the timestamp is passed through
and the VaR grid has exactly `|n| × |alpha|` cells, whether or not `mu`,
`sigma_sqrd` or any cell is NaN/Inf (`none`). -/
theorem get_stat_always_constructs (ppf : ℝ → ℝ) (ts : ℝ)
    (sample : List (Option ℝ)) (p : StatParams) :
    (get_stat ppf ts sample p).timestamp = ts ∧
    ((get_stat ppf ts sample p).var).length = p.n.length * p.alpha.length := by
  refine ⟨rfl, ?_⟩
  show ((p.n.map fun n => fCalcVars ppf _ _ p.period n p.alpha).flatten).length = _
  induction p.n with
  | nil => simp
  | cons n ns ih =>
      simp only [List.map_cons, List.flatten_cons, List.length_append, ih,
        List.length_cons, fCalcVars_length]
      ring

/-- C1 counterexample: `get_stat` emits a record containing NaN.  The
length-2 sample `[1, -1]` makes `r_1 = log(-1)` NaN, hence `mu`,
`sigma_sqrd` and the single VaR cell are all NaN (`none`) — yet the record
is constructed and returned rather than the estimation being skipped.  The
length-1 sample `[1]` (no log-return, `np.mean([])` is NaN) behaves the
same. -/
theorem get_stat_emits_nan_record :
    (get_stat (fun _ => 0) 0 [some 1, some (-1)] ⟨1, [5 / 100], [1]⟩).mu = none ∧
    (get_stat (fun _ => 0) 0 [some 1, some (-1)] ⟨1, [5 / 100], [1]⟩).sigSqrd = none ∧
    (get_stat (fun _ => 0) 0 [some 1, some (-1)] ⟨1, [5 / 100], [1]⟩).var = [none] ∧
    (get_stat (fun _ => 0) 0 [some 1, some (-1)] ⟨1, [5 / 100], [1]⟩).timestamp = 0 ∧
    (get_stat (fun _ => 0) 0 [some 1] ⟨1, [5 / 100], [1]⟩).mu = none := by
  have h1 : logReturns [some (1 : ℝ), some (-1)] = [none] := by
    norm_num [logReturns, flog, fdiv]
  refine ⟨?_, ?_, ?_, rfl, ?_⟩
  · simp [get_stat, h1, fmean, allSome, fdiv]
  · simp [get_stat, h1, fvar, allSome, fdiv]
  · simp [get_stat, h1, fmean, fvar, allSome, fCalcVars, fdiv]
  · simp [get_stat, logReturns, fmean, allSome, fdiv]

/-! ## C4: the MLE calibration formulas -/

theorem allSome_map_some (xs : List ℝ) : allSome (xs.map some) = some xs := by
  induction xs with
  | nil => rfl
  | cons x xs ih => simp [allSome, ih]

theorem logReturns_map_some (l : List ℝ) (hpos : ∀ x ∈ l, 0 < x) :
    logReturns (l.map some) = (specLogReturns l).map some := by
  induction l with
  | nil => rfl
  | cons a tl ih =>
      cases tl with
      | nil => rfl
      | cons b rest =>
          have ha : 0 < a := hpos a (by simp)
          have hb : 0 < b := hpos b (by simp)
          have hdiv : 0 < b / a := div_pos hb ha
          have hhead : flog (fdiv (some b) (some a)) = some (Real.log (b / a)) := by
            rw [fdiv]
            simp only [Option.some_bind]
            rw [if_neg (ne_of_gt ha), flog]
            simp only [Option.some_bind]
            rw [if_pos hdiv]
          have hih := ih (fun x hx => hpos x (by simp [hx]))
          simp only [List.map_cons] at hih
          simp only [List.map_cons, logReturns, specLogReturns, hhead, hih]

theorem specLogReturns_length (l : List ℝ) :
    (specLogReturns l).length = l.length - 1 := by
  induction l with
  | nil => rfl
  | cons a tl ih =>
      cases tl with
      | nil => rfl
      | cons b rest =>
          simp only [specLogReturns, List.length_cons] at ih ⊢
          omega

/-- C4: on a positive sample of length ≥ 2 with `t ≠ 0`, `get_stat` computes
log-returns `r_i = ln(twap_i / twap_{i-1})`, `mu = mean(r)/t` and
`sigma_sqrd = (population variance of r)/t`, where the variance uses the
sample's own mean and denominator `len(r)` (not `len(r) - 1`). -/
theorem get_stat_calibration (ppf : ℝ → ℝ) (ts : ℝ) (l : List ℝ)
    (p : StatParams) (hpos : ∀ x ∈ l, 0 < x) (hlen : 2 ≤ l.length)
    (ht : p.period ≠ 0) :
    (get_stat ppf ts (l.map some) p).mu = some (specMu l p.period) ∧
    (get_stat ppf ts (l.map some) p).sigSqrd = some (specSigmaSqrd l p.period) := by
  have hlr := logReturns_map_some l hpos
  have hn0 : (specLogReturns l).length ≠ 0 := by
    rw [specLogReturns_length]
    omega
  constructor
  · show fdiv (fmean (logReturns (l.map some))) (some p.period) = _
    rw [hlr, fmean, allSome_map_some]
    simp only [Option.some_bind]
    rw [if_neg hn0, fdiv]
    simp only [Option.some_bind]
    rw [if_neg ht]
    rfl
  · show fdiv (fvar (logReturns (l.map some))) (some p.period) = _
    rw [hlr, fvar, allSome_map_some]
    simp only [Option.some_bind]
    rw [if_neg hn0, fdiv]
    simp only [Option.some_bind]
    rw [if_neg ht]
    rfl

/-- C4 witness: the constant positive sample `[1, 1]` with `t = 1` yields
`mu = 0` and `sigma_sqrd = 0`. -/
theorem get_stat_calibration_witness :
    (get_stat (fun q => q) 0 [some 1, some 1] ⟨1, [], []⟩).mu = some 0 ∧
    (get_stat (fun q => q) 0 [some 1, some 1] ⟨1, [], []⟩).sigSqrd = some 0 := by
  have hmap : ([(1 : ℝ), 1].map some) = [some 1, some 1] := rfl
  have h := get_stat_calibration (fun q => q) 0 [(1 : ℝ), 1] ⟨1, [], []⟩
    (by intro x hx; simp only [List.mem_cons, List.mem_singleton] at hx
        rcases hx with rfl | rfl | h
        · norm_num
        · norm_num
        · simp at h)
    (by norm_num) (by norm_num)
  rw [hmap] at h
  obtain ⟨h1, h2⟩ := h
  rw [h1, h2]
  constructor
  · norm_num [specMu, specLogReturns, Real.log_one]
  · norm_num [specSigmaSqrd, specLogReturns, Real.log_one]

end OverlayRisk
